import Mathlib

/-!
Verification development for the real-time call-orchestration pipeline in
`backend/calls/consumers.py` (class `TwilioMediaConsumer`).

The Python code is shallowly embedded as executable Lean definitions:
pure text manipulation becomes functions on `String` / `List Char`, and the
event-driven consumer state becomes an explicit state record with one
transition function per asyncio callback.  Asynchronous cancellation is
cooperative in the source (flags checked at each `await`), so it is modelled
as an explicit interruption index / task-status bookkeeping at the
granularity of those suspension points.  Python text predicates use ASCII
semantics of `Char.isAlpha` / `Char.isDigit` / `Char.isWhitespace`, which
cover every string the source manipulates.
-/

namespace AIC

/-! ## Basic text utilities (Python `str.strip`, `str.split`, `" ".join`) -/

/-- Trim leading and trailing whitespace from a character list — Python
`str.strip()`. -/
def trimChars (l : List Char) : List Char :=
  ((l.dropWhile Char.isWhitespace).reverse.dropWhile Char.isWhitespace).reverse

/-- Python `s.strip()` on `String`. -/
def trimS (s : String) : String :=
  String.mk (trimChars s.data)

/-- Python `" ".join(buffer)`. -/
def joinSpace (l : List String) : String :=
  String.intercalate " " l

/-- Python `"".join(parts)`. -/
def concatAll (l : List String) : String :=
  l.foldl (· ++ ·) ""

/-- Number of maximal non-whitespace runs — Python `len(s.split())`.
The boolean argument records whether we are at a word boundary. -/
def wordCountGo (atBoundary : Bool) : List Char → Nat
  | [] => 0
  | c :: rest =>
    if c.isWhitespace then wordCountGo true rest
    else (if atBoundary then 1 else 0) + wordCountGo false rest

/-- Python `len(sentence.split())`. -/
def wordCount (s : String) : Nat :=
  wordCountGo true s.data

/-- `sentence` is substantial enough to count as a real interruption:
`len(sentence) > 3 or len(sentence.split()) >= 2` (consumers.py line 206). -/
def isSubstantial (sentence : String) : Bool :=
  decide (3 < sentence.data.length) || decide (2 ≤ wordCount sentence)

/-- Python regex word character `\w` (ASCII reading): alphanumeric or `_`. -/
def isWordCharB (c : Char) : Bool :=
  c.isAlphanum || c = '_'

/-- `re.sub(r'[^\w\s]', '', s.lower())` — lowercase, then strip every
character that is neither a word character nor whitespace
(consumers.py lines 213-214). -/
def normChars (l : List Char) : List Char :=
  (l.map Char.toLower).filter fun c => isWordCharB c || c.isWhitespace

/-- `pat` occurs as a contiguous prefix of `hay` (character lists). -/
def seqPrefix : List Char → List Char → Bool
  | [], _ => true
  | _ :: _, [] => false
  | a :: p, b :: s => a = b && seqPrefix p s

/-- Python `pat in hay` on strings: `pat` occurs contiguously in `hay`. -/
def seqIn (pat : List Char) : List Char → Bool
  | [] => seqPrefix pat []
  | c :: s => seqPrefix pat (c :: s) || seqIn pat s

/-! ## End-of-call phrase detection (`END_CALL_PATTERN`, consumers.py 41-44)

`re.compile(r'\b(goodbye|bye|end call|hang up|disconnect|stop calling|cut
the call|phone rakhdo|rakh do)\b', re.IGNORECASE)` — a case-insensitive
word-boundary search. -/

def endCallPhrases : List String :=
  ["goodbye", "bye", "end call", "hang up", "disconnect",
   "stop calling", "cut the call", "phone rakhdo", "rakh do"]

/-- Phrase `p` matches at the head of `s` and the match is followed by a
word boundary (end of string or a non-word character). -/
def phraseHere : List Char → List Char → Bool
  | [], [] => true
  | [], c :: _ => !isWordCharB c
  | _ :: _, [] => false
  | a :: p, c :: s => a = c && phraseHere p s

/-- Scan `s` for a word-boundary occurrence of phrase `p`; `prev` is the
character immediately before the current position, if any. -/
def scanFrom (p : List Char) : Option Char → List Char → Bool
  | prev, s =>
    ((match prev with
      | none => true
      | some c => !isWordCharB c) && phraseHere p s) ||
    match s with
    | [] => false
    | c :: s' => scanFrom p (some c) s'

/-- `END_CALL_PATTERN.search(u)` is truthy. -/
def endCallMatch (u : String) : Bool :=
  endCallPhrases.any fun p => scanFrom p.data none (u.data.map Char.toLower)

/-! ## Streamed-generation chunker (`llm_stream_generator`, consumers.py
332-364)

The generator accumulates streamed token contents in `buffer`; whenever the
buffer holds a sentence terminator it splits at the *last* terminator,
yields the prefix plus a padding space, and keeps the remainder.  At stream
end a remainder that still contains non-whitespace is yielded with a
padding space. -/

/-- Sentence-terminating characters: `['.', '!', '?', ':', '\n']`. -/
def termChar (c : Char) : Bool :=
  c = '.' || c = '!' || c = '?' || c = ':' || c = '\n'

/-- Split a buffer after the last terminator character: returns
`some (pre, rest)` with `pre ++ rest = l`, `pre` ending in a terminator and
`rest` terminator-free; `none` when no terminator occurs.  This is
`buffer[:last+1] / buffer[last+1:]` for
`last = max(buffer.rfind(p) for p in terminators)`. -/
def splitLastTerm : List Char → Option (List Char × List Char)
  | [] => none
  | c :: cs =>
    match splitLastTerm cs with
    | some (p, r) => some (c :: p, r)
    | none => if termChar c then some ([c], cs) else none

/-- Core of the chunker: returns the yielded chunks *without* the padding
space, together with the final buffer remainder. -/
def chunkerCore (buffer : List Char) : List (List Char) → List (List Char) × List Char
  | [] => ([], buffer)
  | t :: ts =>
    let buf := buffer ++ t
    match splitLastTerm buf with
    | some (p, r) =>
      let rest := chunkerCore r ts
      (p :: rest.1, rest.2)
    | none => chunkerCore buf ts

/-- Whether a remainder passes the flush test `if buffer.strip():`. -/
def hasInk (l : List Char) : Bool :=
  l.any fun c => !c.isWhitespace

/-- The fragments actually yielded by `llm_stream_generator` for an
uninterrupted token stream: each split chunk plus a padding space, and a
final flush of the remainder (plus padding space) when it still contains
non-whitespace. -/
def chunkerGo (buffer : List Char) : List (List Char) → List (List Char)
  | [] => if hasInk buffer then [buffer ++ [' ']] else []
  | t :: ts =>
    let buf := buffer ++ t
    match splitLastTerm buf with
    | some (p, r) => (p ++ [' ']) :: chunkerGo r ts
    | none => chunkerGo buf ts

/-- Fragment stream of `llm_stream_generator` from an empty buffer. -/
def llmStreamChunks (tokens : List (List Char)) : List (List Char) :=
  chunkerGo [] tokens

/-- A character list ends with a sentence terminator. -/
def endsWithTerm (l : List Char) : Bool :=
  match l.getLast? with
  | some c => termChar c
  | none => false

/-! ## Playback streamer (`_handle_ai_response`, consumers.py 390-494)

Audio bytes arriving from the synthesis stream are accumulated in
`audio_buffer`; while it holds at least `CHUNK_SIZE = 4000` bytes, one
4000-byte packet is sliced off, base64-encoded and sent as a `media` frame.
On normal completion the remainder is flushed and an
`ai_finished_speaking` `mark` frame is sent last; when the `interrupted`
flag is observed the loop stops at once and neither flushes nor marks.
Bytes are modelled as `Nat` (values < 256) and interruption as the loop
iteration index at which the cooperative flag is first seen true. -/

/-- `CHUNK_SIZE` (consumers.py line 414). -/
def chunkSize : Nat := 4000

/-- The base64 alphabet. -/
def b64Table : List Char :=
  "ABCDEFGHIJKLMNOPQRSTUVWXYZabcdefghijklmnopqrstuvwxyz0123456789+/".data

def b64Char (n : Nat) : Char :=
  b64Table.getD n '='

/-- `base64.b64encode` over a byte list. -/
def base64Encode : List Nat → List Char
  | [] => []
  | [a] => [b64Char (a / 4), b64Char (a % 4 * 16), '=', '=']
  | [a, b] => [b64Char (a / 4), b64Char (a % 4 * 16 + b / 16), b64Char (b % 16 * 4), '=']
  | a :: b :: c :: rest =>
    b64Char (a / 4) :: b64Char (a % 4 * 16 + b / 16) ::
    b64Char (b % 16 * 4 + c / 64) :: b64Char (c % 64) :: base64Encode rest

def b64Str (l : List Nat) : String :=
  String.mk (base64Encode l)

/-- The inner `while len(audio_buffer) >= CHUNK_SIZE` loop, with an explicit
fuel bound so the definition is structural; `fuel = buf.length` always
suffices since each slice removes 4000 > 0 bytes. -/
def drainFuel : Nat → List Nat → List (List Nat) × List Nat
  | 0, buf => ([], buf)
  | fuel + 1, buf =>
    if chunkSize ≤ buf.length then
      (buf.take chunkSize :: (drainFuel fuel (buf.drop chunkSize)).1,
       (drainFuel fuel (buf.drop chunkSize)).2)
    else ([], buf)

/-- Slice as many full 4000-byte packets as possible off the front of the
buffer; returns the packets in order and the remaining partial buffer. -/
def drainBuf (buf : List Nat) : List (List Nat) × List Nat :=
  drainFuel buf.length buf

/-- Outbound frames on the transport socket. -/
inductive Frame
  | media (payload : String)
  | mark (name : String)
  | clear
  deriving DecidableEq, Repr

/-- Has the cooperative `self.interrupted` flag been observed by loop
iteration `i`?  `interruptAt = some j` means the flag becomes true just
before iteration `j` (with `j` = number of chunks meaning: after the last
chunk but before the flush). -/
def interruptedAt : Option Nat → Nat → Bool
  | none, _ => false
  | some j, i => decide (j ≤ i)

/-- The `async for chunk in audio_generator` loop plus flush and mark of
`_handle_ai_response`; `i` is the current iteration index, `buffer` the
accumulated audio bytes. -/
def playbackGo (interruptAt : Option Nat) : Nat → List Nat → List (List Nat) → List Frame
  | i, buffer, [] =>
    if interruptedAt interruptAt i then []
    else
      (if buffer ≠ [] then [Frame.media (b64Str buffer)] else []) ++
      [Frame.mark "ai_finished_speaking"]
  | i, buffer, c :: cs =>
    if interruptedAt interruptAt i then []
    else
      let d := drainBuf (buffer ++ c)
      d.1.map (fun p => Frame.media (b64Str p)) ++ playbackGo interruptAt (i + 1) d.2 cs

/-- Frames sent by `_handle_ai_response` for one synthesized audio stream.
`active` models the `if not self.stream_sid or not self.call_active: return`
guard at entry. -/
def handleAiFrames (active : Bool) (chunks : List (List Nat)) (interruptAt : Option Nat) :
    List Frame :=
  if active then playbackGo interruptAt 0 [] chunks else []

/-! ## Consumer state machine (`TwilioMediaConsumer`)

Each asyncio callback of the consumer becomes a transition on an explicit
state record.  Response tasks (`self.response_task`) are `asyncio.Task`
objects; we keep every task ever created in a chronological list with its
status and model `self.response_task` as an optional index into it, so that
"an old task object still exists but was cancelled" is expressible.
Externally visible side effects (sending `clear`, spawning tasks, DB
logging) are returned as an `Effect` list. -/

inductive TaskStatus
  | running
  | cancelled
  | done
  deriving DecidableEq, Repr

/-- What a response task was created to speak. -/
inductive TaskKind
  | greeting
  | goodbye
  | generate (utterance : String)
  deriving DecidableEq, Repr

structure TaskRec where
  kind : TaskKind
  status : TaskStatus
  deriving DecidableEq, Repr

inductive Effect
  | cancelResponse
  | clearTwilio
  | cancelDebounce
  | startDebounce
  | startTask (k : TaskKind)
  | logEvent (kind : String) (detail : String)
  | saveMessage (role : String) (content : String)
  deriving DecidableEq, Repr

structure CState where
  callActive : Bool
  tasks : List TaskRec
  responseTask : Option Nat
  isAiSpeaking : Bool
  interrupted : Bool
  aiSpokenBuffer : String
  transcriptionBuffer : List String
  debounceRunning : Bool
  messages : List (String × String)
  deriving DecidableEq, Repr

/-- State right after `connect` (consumers.py 53-72). -/
def connectInit : CState :=
  { callActive := true, tasks := [], responseTask := none, isAiSpeaking := false,
    interrupted := false, aiSpokenBuffer := "", transcriptionBuffer := [],
    debounceRunning := false, messages := [] }

/-- Status of a task list at index `i`, with `done` for an index that names
no task. -/
def statusL (tasks : List TaskRec) (i : Nat) : TaskStatus :=
  match tasks[i]? with
  | some r => r.status
  | none => TaskStatus.done

/-- Status of task `i` of a session state. -/
def statusAt (st : CState) (i : Nat) : TaskStatus :=
  statusL st.tasks i

/-- Kind of task `i`, if it exists. -/
def kindAt (st : CState) (i : Nat) : Option TaskKind :=
  (st.tasks[i]?).map TaskRec.kind

/-- `self.response_task` exists and is not done (Python truthiness plus
`not self.response_task.done()`). -/
def currentNotDone (st : CState) : Bool :=
  match st.responseTask with
  | some i => decide (statusAt st i ≠ TaskStatus.done)
  | none => false

/-- The current response task exists and is still running. -/
def currentRunning (st : CState) : Bool :=
  match st.responseTask with
  | some i => decide (statusAt st i = TaskStatus.running)
  | none => false

/-- Overwrite the status of task `i` (no-op when `i` names no task). -/
def setStatus (tasks : List TaskRec) (i : Nat) (s : TaskStatus) : List TaskRec :=
  match tasks[i]? with
  | some r => tasks.set i { r with status := s }
  | none => tasks

/-- `_cancel_response_task` (consumers.py 168-174): cancel the tracked task
if it is not done and drop the reference; always force-clear the speaking
flag and the echo buffer. -/
def cancelResponseTask (st : CState) : CState :=
  let st' :=
    match st.responseTask with
    | some i =>
      if statusAt st i ≠ TaskStatus.done then
        { st with tasks := setStatus st.tasks i TaskStatus.cancelled, responseTask := none }
      else st
    | none => st
  { st' with isAiSpeaking := false, aiSpokenBuffer := "" }

/-- `asyncio.create_task(...)` assigned to `self.response_task`: append a
fresh running task and point the reference at it. -/
def createTask (st : CState) (k : TaskKind) : CState :=
  { st with tasks := st.tasks ++ [{ kind := k, status := TaskStatus.running }],
            responseTask := some st.tasks.length }

/-- `_clear_twilio_buffer` (consumers.py 176-188): when the call is active a
`clear` frame is sent and the speaking flag dropped. -/
def clearTwilioState (st : CState) : CState :=
  if st.callActive then { st with isAiSpeaking := false } else st

/-- The echo-filter decision (consumers.py 212-218): while the AI is
speaking with a non-empty spoken buffer, drop a fragment whose
normalization is contained in the buffer normalization or vice versa. -/
def echoDrop (st : CState) (sentence : String) : Bool :=
  st.isAiSpeaking && st.aiSpokenBuffer ≠ "" &&
    (seqIn (normChars sentence.data) (normChars st.aiSpokenBuffer.data) ||
     seqIn (normChars st.aiSpokenBuffer.data) (normChars sentence.data))

/-- The state produced by the one-shot interruption block (consumers.py
227-236): set the `interrupted` flag, cancel the response task, clear the
Twilio buffer, and wipe the aggregator buffer and pending debounce. -/
def interruptState (st : CState) : CState :=
  let sa := cancelResponseTask { st with interrupted := true }
  let sb := clearTwilioState sa
  { sb with transcriptionBuffer := [], debounceRunning := false }

/-- `on_message` after the echo filter (consumers.py 220-298): interruption
handling, interim filtering, empty-final filtering, then append to the
transcription buffer and restart the debounce task. -/
def onMessageRest (st : CState) (sentence : String) (isFinal : Bool) :
    CState × List Effect :=
  if st.isAiSpeaking && !isSubstantial sentence then (st, [])
  else
    let trig := st.isAiSpeaking && !st.interrupted
    let st1 := if trig then interruptState st else st
    let e1 : List Effect :=
      if trig then
        [Effect.cancelResponse, Effect.clearTwilio] ++
        (if st.debounceRunning then [Effect.cancelDebounce] else [])
      else []
    if !isFinal then (st1, e1)
    else if sentence = "" then (st1, e1)
    else
      let st2 := { st1 with interrupted := false,
                            transcriptionBuffer := st1.transcriptionBuffer ++ [sentence] }
      let e2 : List Effect := if st2.debounceRunning then [Effect.cancelDebounce] else []
      ({ st2 with debounceRunning := true },
       e1 ++ [Effect.logEvent "transcription_chunk" sentence] ++ e2 ++ [Effect.startDebounce])

/-- The whole Deepgram `on_message` callback (consumers.py 198-298) for one
transcript event: strip, echo-filter, then the rest of the pipeline. -/
def onMessage (st : CState) (transcript : String) (isFinal : Bool) :
    CState × List Effect :=
  let sentence := trimS transcript
  if echoDrop st sentence then (st, [])
  else onMessageRest st sentence isFinal

/-- `"Thank you for calling. Goodbye! Have a great day."` -/
def goodbyeMsg : String := "Thank you for calling. Goodbye! Have a great day."

/-- Body of `_process_user_buffer` after the 0.4 s sleep completes
(consumers.py 271-296): join and clear the buffer, drop empty utterances,
detect end-of-call phrases (goodbye task), otherwise cancel any current
response task and start `_generate_and_speak`. -/
def processUserBuffer (st : CState) : CState × List Effect :=
  let full := trimS (joinSpace st.transcriptionBuffer)
  let st0 := { st with transcriptionBuffer := [], debounceRunning := false }
  if full = "" then (st0, [])
  else
    let e0 : List Effect :=
      [Effect.logEvent "transcription" full, Effect.saveMessage "user" full]
    if endCallMatch full then
      let st1 := createTask (cancelResponseTask st0) TaskKind.goodbye
      (st1, e0 ++ [Effect.saveMessage "assistant" goodbyeMsg,
                   Effect.logEvent "call_ended" "User said goodbye",
                   Effect.cancelResponse, Effect.startTask TaskKind.goodbye])
    else
      let st1 := createTask (cancelResponseTask st0) (TaskKind.generate full)
      (st1, e0 ++ [Effect.cancelResponse, Effect.startTask (TaskKind.generate full)])

/-- The `mark` branch of `receive` (consumers.py 102-107): on an
`ai_finished_speaking` mark, clear the speaking flag only when no response
task exists or the current one is done. -/
def receiveMark (st : CState) (name : String) : CState :=
  if name = "ai_finished_speaking" then
    if currentNotDone st then st else { st with isAiSpeaking := false }
  else st

/-- `_handle_start` (consumers.py 113-149), reduced to the fields of the
model: seed the conversation with the system prompt and fire the greeting
response task (note: no `_cancel_response_task` on this path). -/
def handleStart (st : CState) : CState :=
  createTask { st with messages := [("system", "prompt")] } TaskKind.greeting

/-- `_handle_stop` / `disconnect` (consumers.py 74-87, 161-166). -/
def handleStop (st : CState) : CState :=
  cancelResponseTask { st with callActive := false }

/-- Session-level events: transport callbacks plus the observable
scheduling points of the response task itself.  `taskBegin` is
`_handle_ai_response` entering (lines 398-399), `taskYield s` is the
generation stream appending `s` to `self.ai_spoken_buffer` (line 352), and
`taskDone` is the task finishing normally (the `finally` of
`_handle_ai_response`, line 494). -/
inductive Ev
  | start
  | frag (transcript : String) (isFinal : Bool)
  | fireDebounce
  | markFrame (name : String)
  | stop
  | taskBegin
  | taskYield (s : String)
  | taskDone
  deriving DecidableEq, Repr

/-- Is the current response task a running `generate` task? -/
def currentGenRunning (st : CState) : Bool :=
  match st.responseTask with
  | some i =>
    decide (statusAt st i = TaskStatus.running) &&
    (match kindAt st i with
     | some (TaskKind.generate _) => true
     | _ => false)
  | none => false

/-- Mark the current task as done (its coroutine returned) and clear the
speaking flag, as the `finally` of `_handle_ai_response` does. -/
def finishCurrent (st : CState) : CState :=
  match st.responseTask with
  | some i =>
    if statusAt st i = TaskStatus.running then
      { st with tasks := setStatus st.tasks i TaskStatus.done, isAiSpeaking := false }
    else st
  | none => st

/-- One step of the session: dispatch an event to its handler. -/
def step (st : CState) : Ev → CState
  | Ev.start => handleStart st
  | Ev.frag t f => (onMessage st t f).1
  | Ev.fireDebounce => if st.debounceRunning then (processUserBuffer st).1 else st
  | Ev.markFrame n => receiveMark st n
  | Ev.stop => handleStop st
  | Ev.taskBegin =>
    if currentRunning st then { st with isAiSpeaking := true, interrupted := false } else st
  | Ev.taskYield s =>
    if currentGenRunning st then { st with aiSpokenBuffer := st.aiSpokenBuffer ++ s } else st
  | Ev.taskDone => finishCurrent st

/-- Run a trace of events from the freshly connected state. -/
def runTrace (evs : List Ev) : CState :=
  evs.foldl step connectInit

/-- A transport-respecting trace: the `start` event of a Twilio stream can
only arrive once, as the first event. -/
def goodTrace : List Ev → Prop
  | [] => True
  | _ :: rest => Ev.start ∉ rest

instance : DecidablePred goodTrace := by
  intro evs
  cases evs with
  | nil => exact inferInstanceAs (Decidable True)
  | cons e rest => exact inferInstanceAs (Decidable (Ev.start ∉ rest))

/-- The single-reply invariant: every running task is the newest task and
is the one tracked by `self.response_task`. -/
def OneReply (st : CState) : Prop :=
  ∀ i < st.tasks.length,
    statusAt st i = TaskStatus.running →
    i + 1 = st.tasks.length ∧ st.responseTask = some i

instance (st : CState) : Decidable (OneReply st) :=
  Nat.decidableBallLT st.tasks.length fun i _ =>
    statusAt st i = TaskStatus.running → i + 1 = st.tasks.length ∧ st.responseTask = some i

/-- No task of the session is still running. -/
def NoRunning (st : CState) : Prop :=
  ∀ i, statusAt st i ≠ TaskStatus.running

/-! ## One generation turn (`_generate_and_speak`, consumers.py 323-387)

The turn appends the user utterance to `self.messages`, streams tokens into
`full_response_parts` (and through the chunker), and in its `finally`
records the accumulated text as the assistant turn when it is non-empty
after stripping.  A stream error appends and yields the apology; a
cancellation stops the stream without flushing. -/

/-- `"Sorry, I'm having trouble thinking."` (consumers.py 371). -/
def apologyMsg : String := "Sorry, I\x27m having trouble thinking."

/-- How the token stream of one turn ends: runs to completion with these
token contents, errors after them, or is cancelled after them. -/
inductive GenOutcome
  | ok (tokens : List String)
  | err (tokensBefore : List String)
  | cancelledAt (tokensBefore : List String)
  deriving DecidableEq, Repr

/-- Contents of `full_response_parts` at turn end: every streamed token, plus
the apology when the stream errored (consumers.py 350, 372). -/
def genParts : GenOutcome → List String
  | GenOutcome.ok ts => ts
  | GenOutcome.err ts => ts ++ [apologyMsg]
  | GenOutcome.cancelledAt ts => ts

/-- The chunk fragments yielded for the processed tokens, without the final
flush (used on the error/cancellation paths, where the pending buffer is
never flushed). -/
def chunkFragsNoFlush (ts : List String) : List String :=
  ((chunkerCore [] (ts.map String.data)).1.map fun l => String.mk (l ++ [' ']))

/-- The text fragments actually yielded by `llm_stream_generator`:
on success the chunked stream with its final flush; on error the chunks so
far followed by the raw apology; on cancellation just the chunks so far. -/
def genFragments : GenOutcome → List String
  | GenOutcome.ok ts => (llmStreamChunks (ts.map String.data)).map String.mk
  | GenOutcome.err ts => chunkFragsNoFlush ts ++ [apologyMsg]
  | GenOutcome.cancelledAt ts => chunkFragsNoFlush ts

/-- `_generate_and_speak`: returns the conversation history after the turn
and the yielded fragments.  The history gains the user turn immediately and
the assistant turn in the `finally` block whenever the accumulated text is
non-empty after stripping. -/
def generateAndSpeak (messages : List (String × String)) (userText : String)
    (out : GenOutcome) : List (String × String) × List String :=
  let msgs := messages ++ [("user", userText)]
  let finalText := trimS (concatAll (genParts out))
  let msgs := if finalText ≠ "" then msgs ++ [("assistant", finalText)] else msgs
  (msgs, genFragments out)

/-! ## Timed semantics of the debounce aggregator (consumers.py 256-298)

`on_message` appends each surviving final fragment to
`self.transcription_buffer` and cancel-and-replaces the 0.4 s
`_process_user_buffer` timer; when the timer fires, the buffered fragments
are joined with single spaces, the buffer cleared, and the non-empty joined
text becomes one finalized utterance.  We model a run of final fragments as
a list of `(arrival time, text)` pairs; a fragment arriving strictly within
`window` of the previous one cancels the pending timer, otherwise the timer
has already fired and emitted the buffered utterance. -/

/-- The debounce window in milliseconds (`asyncio.sleep(0.4)`). -/
def debounceMs : Nat := 400

/-- Firing `_process_user_buffer`'s tail on a buffer: join with single
spaces, strip, and emit unless empty. -/
def flushUtt (buf : List String) : List String :=
  let s := trimS (joinSpace buf)
  if s = "" then [] else [s]

/-- Operational aggregation: `buf` is the live transcription buffer and
`tPrev` the arrival time of the fragment that (re)started the pending
timer. -/
def runAggGo (w : Nat) (buf : List String) (tPrev : Nat) :
    List (Nat × String) → List String
  | [] => flushUtt buf
  | (t, s) :: rest =>
    if t - tPrev < w then runAggGo w (buf ++ [s]) t rest
    else flushUtt buf ++ runAggGo w [s] t rest

/-- Finalized utterances produced for a timed run of final fragments. -/
def runAgg (w : Nat) : List (Nat × String) → List String
  | [] => []
  | (t, s) :: rest => runAggGo w [s] t rest

/-- Modelled from the spec: group consecutive fragments whose gap from the
previous fragment is below the debounce window. -/
def gapGo (w : Nat) (tPrev : Nat) (acc : List String) :
    List (Nat × String) → List (List String)
  | [] => [acc]
  | (t, s) :: rest =>
    if t - tPrev < w then gapGo w t (acc ++ [s]) rest
    else acc :: gapGo w t [s] rest

/-- Modelled from the spec: the gap-based grouping of a timed fragment run. -/
def gapGroups (w : Nat) : List (Nat × String) → List (List String)
  | [] => []
  | (t, s) :: rest => gapGo w t [s] rest

/-- Modelled from the spec: each gap-group joined with single spaces and
trimmed, with empty utterances dropped silently. -/
def aggSpecUtterances (w : Nat) (frags : List (Nat × String)) : List String :=
  ((gapGroups w frags).map fun g => trimS (joinSpace g)).filter (· ≠ "")

/-! ## Derived states and concrete instances used in the theorems -/

/-- The state after a final substantial fragment has both interrupted the
reply and restarted aggregation with itself as the sole buffered fragment. -/
def interruptThenFinal (st : CState) (s : String) : CState :=
  { interruptState st with
    interrupted := false
    transcriptionBuffer := [s]
    debounceRunning := true }

/-- The spec's own example token stream `"Hi", " there", ". ", "How",
" are", " you", "?"`. -/
def tokensExample : List (List Char) :=
  ["Hi", " there", ". ", "How", " are", " you", "?"].map String.data

/-- A speaking state with the spec's example baseline. -/
def stEcho : CState :=
  { connectInit with
    isAiSpeaking := true
    aiSpokenBuffer := "the weather is nice today" }

/-- A speaking state mid-reply: a running generate task, a pending debounce
and a stale aggregator buffer. -/
def stSpeak : CState :=
  { connectInit with
    isAiSpeaking := true
    tasks := [{ kind := TaskKind.generate "x", status := TaskStatus.running }]
    responseTask := some 0
    transcriptionBuffer := ["old"]
    debounceRunning := true }

/-- A state whose tracked response task has finished. -/
def stMarkDone : CState :=
  { connectInit with
    isAiSpeaking := true
    tasks := [{ kind := TaskKind.greeting, status := TaskStatus.done }]
    responseTask := some 0 }

/-- A state with a freshly started (still running) response task. -/
def stMarkRun : CState :=
  { connectInit with
    isAiSpeaking := true
    tasks := [{ kind := TaskKind.generate "y", status := TaskStatus.running }]
    responseTask := some 0 }

/-- A state whose debounce has fired on the buffered fragment "goodbye". -/
def stGb : CState :=
  { connectInit with
    transcriptionBuffer := ["goodbye"]
    debounceRunning := true }

/-- A running generate task that has already spoken one sentence. -/
def stGen : CState :=
  { connectInit with
    tasks := [{ kind := TaskKind.generate "x", status := TaskStatus.running }]
    responseTask := some 0
    aiSpokenBuffer := "Hello. " }

/-- A full session in which the user says goodbye and the goodbye reply
plays to completion. -/
def goodbyeTrace : List Ev :=
  [Ev.start, Ev.taskDone, Ev.frag "goodbye" true, Ev.fireDebounce,
   Ev.taskBegin, Ev.taskDone]

/-- A full session with one generated reply played to completion. -/
def replyTrace : List Ev :=
  [Ev.start, Ev.taskDone, Ev.frag "tell me something" true, Ev.fireDebounce,
   Ev.taskBegin, Ev.taskYield "Hi there.", Ev.taskDone]

/-- A short well-formed trace ending mid-conversation. -/
def simpleTrace : List Ev :=
  [Ev.start, Ev.frag "hi there" true, Ev.fireDebounce]

/-! ## Lemmas about the generation chunker -/

theorem splitLastTerm_some : ∀ {l p r : List Char},
    splitLastTerm l = some (p, r) → p ++ r = l ∧ endsWithTerm p = true := by
  intro l
  induction l with
  | nil => intro p r h; simp [splitLastTerm] at h
  | cons c cs ih =>
    intro p r h
    simp only [splitLastTerm] at h
    cases hcs : splitLastTerm cs with
    | some pr =>
      obtain ⟨p', r'⟩ := pr
      rw [hcs] at h
      simp only [Option.some.injEq, Prod.mk.injEq] at h
      obtain ⟨hp, hr⟩ := h
      obtain ⟨hpr, hend⟩ := ih hcs
      subst hp hr
      constructor
      · simp [← hpr]
      · cases p' with
        | nil => simp [endsWithTerm] at hend
        | cons x xs => simpa [endsWithTerm, List.getLast?_cons_cons] using hend
    | none =>
      rw [hcs] at h
      by_cases htc : termChar c
      · simp only [htc, if_pos] at h
        simp only [Option.some.injEq, Prod.mk.injEq] at h
        obtain ⟨hp, hr⟩ := h
        subst hp hr
        exact ⟨rfl, by simp [endsWithTerm, htc]⟩
      · simp [htc] at h

theorem chunkerCore_reconstruct :
    ∀ (ts : List (List Char)) (buffer : List Char),
      (chunkerCore buffer ts).1.flatten ++ (chunkerCore buffer ts).2 =
        buffer ++ ts.flatten := by
  intro ts
  induction ts with
  | nil => intro buffer; simp [chunkerCore]
  | cons t ts ih =>
    intro buffer
    simp only [chunkerCore]
    cases h : splitLastTerm (buffer ++ t) with
    | some pr =>
      obtain ⟨p, r⟩ := pr
      obtain ⟨hpr, -⟩ := splitLastTerm_some h
      simp only [List.flatten_cons, List.append_assoc, ih r]
      rw [← List.append_assoc, hpr]
      simp
    | none =>
      rw [ih (buffer ++ t)]
      simp

theorem chunkerCore_ends :
    ∀ (ts : List (List Char)) (buffer : List Char),
      ∀ c ∈ (chunkerCore buffer ts).1, endsWithTerm c = true := by
  intro ts
  induction ts with
  | nil => intro buffer c hc; simp [chunkerCore] at hc
  | cons t ts ih =>
    intro buffer c hc
    simp only [chunkerCore] at hc
    cases h : splitLastTerm (buffer ++ t) with
    | some pr =>
      obtain ⟨p, r⟩ := pr
      rw [h] at hc
      simp only [List.mem_cons] at hc
      cases hc with
      | inl hc => subst hc; exact (splitLastTerm_some h).2
      | inr hc => exact ih r c hc
    | none =>
      rw [h] at hc
      exact ih (buffer ++ t) c hc

theorem chunkerGo_eq :
    ∀ (ts : List (List Char)) (buffer : List Char),
      chunkerGo buffer ts =
        (chunkerCore buffer ts).1.map (· ++ [' ']) ++
          (if hasInk (chunkerCore buffer ts).2 then
            [(chunkerCore buffer ts).2 ++ [' ']] else []) := by
  intro ts
  induction ts with
  | nil => intro buffer; simp [chunkerGo, chunkerCore]
  | cons t ts ih =>
    intro buffer
    simp only [chunkerGo, chunkerCore]
    cases h : splitLastTerm (buffer ++ t) with
    | some pr =>
      obtain ⟨p, r⟩ := pr
      simp [ih r]
    | none => exact ih (buffer ++ t)

/-- C5 counterexample: for the spec's example token stream the
concatenation of the fragments emitted by `llm_stream_generator` is NOT the
full reply text — each yielded fragment carries an extra padding space
(`yield chunk_to_yield + " "`), so the concatenation is
`"Hi there.  How are you? "` while the reply text is
`"Hi there. How are you?"`. -/
theorem C5_concat_counterexample :
    (llmStreamChunks tokensExample).flatten ≠ tokensExample.flatten := by
  decide

/-- C5 (amended): every fragment emitted by the chunker is a split chunk
plus one padding space (with a final flush of the remainder only when it
still holds non-whitespace); the split chunks concatenated with the final
remainder reconstruct the full untruncated reply text exactly; and every
split chunk ends in a sentence terminator, so fragment boundaries lie only
at terminal punctuation. -/
theorem C5_chunker_reconstruction (tokens : List (List Char)) :
    llmStreamChunks tokens =
      (chunkerCore [] tokens).1.map (· ++ [' ']) ++
        (if hasInk (chunkerCore [] tokens).2 then
          [(chunkerCore [] tokens).2 ++ [' ']] else []) ∧
    (chunkerCore [] tokens).1.flatten ++ (chunkerCore [] tokens).2 = tokens.flatten ∧
    ∀ c ∈ (chunkerCore [] tokens).1, endsWithTerm c = true := by
  refine ⟨chunkerGo_eq tokens [], ?_, chunkerCore_ends tokens []⟩
  simpa using chunkerCore_reconstruct tokens []

/-! ## Lemmas about the debounce aggregator -/

theorem runAggGo_eq :
    ∀ (evs : List (Nat × String)) (w : Nat) (buf : List String) (t : Nat),
      runAggGo w buf t evs =
        ((gapGo w t buf evs).map fun g => trimS (joinSpace g)).filter (· ≠ "") := by
  intro evs
  induction evs with
  | nil =>
    intro w buf t
    simp only [runAggGo, gapGo, List.map_cons, List.map_nil, List.filter, flushUtt]
    split <;> simp_all
  | cons e rest ih =>
    intro w buf t
    obtain ⟨t', s⟩ := e
    simp only [runAggGo, gapGo]
    by_cases hlt : t' - t < w
    · simp only [if_pos hlt]
      exact ih w (buf ++ [s]) t'
    · simp only [if_neg hlt, List.map_cons, List.filter_cons]
      rw [ih w [s] t']
      simp only [flushUtt]
      split <;> simp_all

/-- C2: the event-driven debounce implementation (append each final
fragment, cancel-and-replace a fixed 0.4 s timer, join with single spaces
and clear on firing, drop empty utterances) produces exactly the
spec-level aggregation: fragments grouped by arrival gaps below the window,
each group joined with single spaces, empty utterances silently dropped.
Fragments `["hel", "lo "]` 100 ms apart give one utterance `"hel lo"`;
600 ms apart they give two. -/
theorem C2_debounce_aggregation :
    (∀ (w : Nat) (frags : List (Nat × String)), runAgg w frags = aggSpecUtterances w frags) ∧
    runAgg debounceMs [(0, "hel"), (100, "lo ")] = ["hel lo"] ∧
    runAgg debounceMs [(0, "hel"), (600, "lo ")] = ["hel", "lo"] := by
  refine ⟨?_, by decide, by decide⟩
  intro w frags
  cases frags with
  | nil => rfl
  | cons e rest =>
    obtain ⟨t, s⟩ := e
    simp only [runAgg, aggSpecUtterances, gapGroups]
    exact runAggGo_eq rest w [s] t

/-! ## Field lemmas for the consumer transitions -/

theorem cancel_isAiSpeaking (st : CState) :
    (cancelResponseTask st).isAiSpeaking = false := by
  rcases h : st.responseTask with _ | i <;> simp only [cancelResponseTask, h]

theorem cancel_aiSpokenBuffer (st : CState) :
    (cancelResponseTask st).aiSpokenBuffer = "" := by
  rcases h : st.responseTask with _ | i <;> simp only [cancelResponseTask, h]

theorem cancel_interrupted (st : CState) :
    (cancelResponseTask st).interrupted = st.interrupted := by
  rcases h : st.responseTask with _ | i <;>
    (simp only [cancelResponseTask, h]; try split <;> rfl)

theorem cancel_transcriptionBuffer (st : CState) :
    (cancelResponseTask st).transcriptionBuffer = st.transcriptionBuffer := by
  rcases h : st.responseTask with _ | i <;>
    (simp only [cancelResponseTask, h]; try split <;> rfl)

theorem cancel_debounceRunning (st : CState) :
    (cancelResponseTask st).debounceRunning = st.debounceRunning := by
  rcases h : st.responseTask with _ | i <;>
    (simp only [cancelResponseTask, h]; try split <;> rfl)

theorem cancel_callActive (st : CState) :
    (cancelResponseTask st).callActive = st.callActive := by
  rcases h : st.responseTask with _ | i <;>
    (simp only [cancelResponseTask, h]; try split <;> rfl)

theorem cancel_messages (st : CState) :
    (cancelResponseTask st).messages = st.messages := by
  rcases h : st.responseTask with _ | i <;>
    (simp only [cancelResponseTask, h]; try split <;> rfl)

theorem clear_tasks (st : CState) : (clearTwilioState st).tasks = st.tasks := by
  unfold clearTwilioState; split <;> rfl

theorem clear_responseTask (st : CState) :
    (clearTwilioState st).responseTask = st.responseTask := by
  unfold clearTwilioState; split <;> rfl

theorem clear_interrupted (st : CState) :
    (clearTwilioState st).interrupted = st.interrupted := by
  unfold clearTwilioState; split <;> rfl

theorem clear_callActive (st : CState) :
    (clearTwilioState st).callActive = st.callActive := by
  unfold clearTwilioState; split <;> rfl

theorem clear_isAiSpeaking_of_false (st : CState) (h : st.isAiSpeaking = false) :
    (clearTwilioState st).isAiSpeaking = false := by
  unfold clearTwilioState; split <;> simp [h]

theorem interruptState_interrupted (st : CState) :
    (interruptState st).interrupted = true := by
  show (clearTwilioState (cancelResponseTask { st with interrupted := true })).interrupted = true
  rw [clear_interrupted, cancel_interrupted]

theorem interruptState_isAiSpeaking (st : CState) :
    (interruptState st).isAiSpeaking = false := by
  show (clearTwilioState (cancelResponseTask { st with interrupted := true })).isAiSpeaking = false
  exact clear_isAiSpeaking_of_false _ (cancel_isAiSpeaking _)

/-! ## C4 — the echo filter -/

/-- C4: a transcript fragment is dropped by the anti-echo filter exactly
when the AI is speaking, the spoken buffer is non-empty, and the
lowercased, punctuation-stripped fragment is contained in the similarly
normalized buffer or vice versa; a dropped fragment produces no state
change and no effects (it never reaches the interruption or aggregation
logic), and an undropped fragment proceeds to the rest of the `on_message`
pipeline unchanged. -/
theorem C4_echo_filter (st : CState) (t : String) (f : Bool) :
    (echoDrop st (trimS t) = true ↔
      (st.isAiSpeaking = true ∧ st.aiSpokenBuffer ≠ "" ∧
        (seqIn (normChars (trimS t).data) (normChars st.aiSpokenBuffer.data) = true ∨
         seqIn (normChars st.aiSpokenBuffer.data) (normChars (trimS t).data) = true))) ∧
    (echoDrop st (trimS t) = true → onMessage st t f = (st, [])) ∧
    (echoDrop st (trimS t) = false → onMessage st t f = onMessageRest st (trimS t) f) := by
  refine ⟨?_, ?_, ?_⟩
  · simp [echoDrop, Bool.and_eq_true, Bool.or_eq_true, and_assoc]
  · intro h; simp [onMessage, h]
  · intro h; simp [onMessage, h]

theorem C4_echo_filter_witness :
    onMessage stEcho "weather is nice" true = (stEcho, []) ∧
    onMessage stEcho "what time is it" true =
      onMessageRest stEcho (trimS "what time is it") true :=
  ⟨(C4_echo_filter stEcho "weather is nice" true).2.1 (by decide),
   (C4_echo_filter stEcho "what time is it" true).2.2 (by decide)⟩

/-! ## C3 — interruption handling -/

theorem isSubstantial_ne_empty {s : String} (h : isSubstantial s = true) : s ≠ "" := by
  intro he; subst he; simp [isSubstantial, wordCount, wordCountGo] at h

/-- A substantial fragment arriving mid-speech with the one-shot flag clear
runs the interruption block; a partial result then returns at once. -/
theorem onMessageRest_trigger (st : CState) (s : String)
    (hSpeak : st.isAiSpeaking = true) (hInt : st.interrupted = false)
    (hSub : isSubstantial s = true) :
    onMessageRest st s false =
      (interruptState st,
       [Effect.cancelResponse, Effect.clearTwilio] ++
         (if st.debounceRunning then [Effect.cancelDebounce] else [])) := by
  unfold onMessageRest
  simp [hSpeak, hInt, hSub]

/-- Same trigger on a final fragment: the interruption block runs, then the
fragment is processed as the sole element of a fresh buffer with a fresh
debounce, and the one-shot flag is reset. -/
theorem onMessageRest_trigger_final (st : CState) (s : String)
    (hSpeak : st.isAiSpeaking = true) (hInt : st.interrupted = false)
    (hSub : isSubstantial s = true) :
    onMessageRest st s true =
      (interruptThenFinal st s,
       ([Effect.cancelResponse, Effect.clearTwilio] ++
          (if st.debounceRunning then [Effect.cancelDebounce] else [])) ++
         [Effect.logEvent "transcription_chunk" s] ++ [] ++
         [Effect.startDebounce]) := by
  have hne : s ≠ "" := isSubstantial_ne_empty hSub
  have hTb : (interruptState st).transcriptionBuffer = [] := rfl
  have hDb : (interruptState st).debounceRunning = false := rfl
  unfold onMessageRest interruptThenFinal
  simp [hSpeak, hInt, hSub, hne, hTb, hDb]

/-- While the AI is not speaking, a partial fragment is a no-op. -/
theorem onMessage_noop_partial (st : CState) (t : String)
    (h : st.isAiSpeaking = false) : onMessage st t false = (st, []) := by
  simp [onMessage, echoDrop, onMessageRest, h]

/-- C3: while the AI is speaking and not yet interrupted, the first
substantial fragment — partial or final — cancels the response task, sends
the clear/flush instruction, and empties the aggregator buffer and debounce
timer, setting the one-shot flag; a partial trigger does not finalize (no
debounce is started); any further fragment while halted is a no-op (the
trigger cannot re-fire in the same window); a final trigger immediately
becomes the sole buffered fragment with a fresh debounce; and processing
any surviving final fragment resets the one-shot interrupted flag. -/
theorem C3_interruption (st : CState) (t : String)
    (hSpeak : st.isAiSpeaking = true) (hInt : st.interrupted = false)
    (hEcho : echoDrop st (trimS t) = false)
    (hSub : isSubstantial (trimS t) = true) :
    (Effect.cancelResponse ∈ (onMessage st t false).2 ∧
     Effect.clearTwilio ∈ (onMessage st t false).2 ∧
     (onMessage st t false).1.transcriptionBuffer = [] ∧
     (onMessage st t false).1.debounceRunning = false ∧
     (onMessage st t false).1.interrupted = true ∧
     (onMessage st t false).1.isAiSpeaking = false ∧
     Effect.startDebounce ∉ (onMessage st t false).2) ∧
    (∀ t2, onMessage (onMessage st t false).1 t2 false = ((onMessage st t false).1, [])) ∧
    (Effect.cancelResponse ∈ (onMessage st t true).2 ∧
     Effect.clearTwilio ∈ (onMessage st t true).2 ∧
     (onMessage st t true).1.interrupted = false ∧
     (onMessage st t true).1.transcriptionBuffer = [trimS t] ∧
     (onMessage st t true).1.debounceRunning = true) ∧
    (∀ (st2 : CState) (t2 : String), echoDrop st2 (trimS t2) = false →
      (st2.isAiSpeaking = true → isSubstantial (trimS t2) = true) →
      trimS t2 ≠ "" →
      (onMessage st2 t2 true).1.interrupted = false) := by
  have hOm : onMessage st t false =
      (interruptState st,
       [Effect.cancelResponse, Effect.clearTwilio] ++
         (if st.debounceRunning then [Effect.cancelDebounce] else [])) := by
    rw [show onMessage st t false = onMessageRest st (trimS t) false by
          simp [onMessage, hEcho],
        onMessageRest_trigger st (trimS t) hSpeak hInt hSub]
  have hOmF : onMessage st t true =
      (interruptThenFinal st (trimS t),
       ([Effect.cancelResponse, Effect.clearTwilio] ++
          (if st.debounceRunning then [Effect.cancelDebounce] else [])) ++
         [Effect.logEvent "transcription_chunk" (trimS t)] ++ [] ++
         [Effect.startDebounce]) := by
    rw [show onMessage st t true = onMessageRest st (trimS t) true by
          simp [onMessage, hEcho],
        onMessageRest_trigger_final st (trimS t) hSpeak hInt hSub]
  refine ⟨?_, ?_, ?_, ?_⟩
  · rw [hOm]
    refine ⟨by simp, by simp, rfl, rfl, interruptState_interrupted st,
      interruptState_isAiSpeaking st, ?_⟩
    intro hmem
    simp only [List.mem_append, List.mem_cons, List.not_mem_nil, or_false] at hmem
    rcases hmem with (h | h) | h
    · exact Effect.noConfusion h
    · exact Effect.noConfusion h
    · split at h <;> simp_all
  · intro t2
    rw [hOm]
    exact onMessage_noop_partial _ t2 (interruptState_isAiSpeaking st)
  · rw [hOmF]
    exact ⟨by simp, by simp, rfl, rfl, rfl⟩
  · intro st2 t2 hE2 hS2 hne2
    rw [show onMessage st2 t2 true = onMessageRest st2 (trimS t2) true by
          simp [onMessage, hE2]]
    unfold onMessageRest
    by_cases hAi2 : st2.isAiSpeaking = true
    · have hsub2 := hS2 hAi2
      simp [hAi2, hsub2, hne2]
    · simp only [Bool.not_eq_true] at hAi2
      simp [hAi2, hne2]

theorem C3_interruption_witness :
    Effect.cancelResponse ∈ (onMessage stSpeak "stop please" false).2 ∧
    Effect.clearTwilio ∈ (onMessage stSpeak "stop please" false).2 ∧
    (onMessage stSpeak "stop please" false).1.interrupted = true ∧
    (onMessage stSpeak "stop please" false).1.transcriptionBuffer = [] ∧
    onMessage (onMessage stSpeak "stop please" false).1 "yes really" false =
      ((onMessage stSpeak "stop please" false).1, []) := by
  obtain ⟨⟨h1, h2, h3, -, h5, -, -⟩, hidem, -, -⟩ :=
    C3_interruption stSpeak "stop please" (by decide) (by decide) (by decide)
      (by decide)
  exact ⟨h1, h2, h5, h3, hidem "yes really"⟩

/-! ## C10 — stale completion marks -/

/-- C10: an `ai_finished_speaking` mark clears the is-speaking flag exactly
when no response task is tracked or the tracked task is done; when a (new)
response task is still pending the mark leaves the state untouched, so a
stale mark from a cancelled reply can never mark a newly started reply as
finished. -/
theorem C10_mark_guard (st : CState) :
    (currentNotDone st = false →
      receiveMark st "ai_finished_speaking" = { st with isAiSpeaking := false }) ∧
    (currentNotDone st = true → receiveMark st "ai_finished_speaking" = st) ∧
    (currentNotDone st = false ↔
      (st.responseTask = none ∨
        ∃ i, st.responseTask = some i ∧ statusAt st i = TaskStatus.done)) := by
  refine ⟨?_, ?_, ?_⟩
  · intro h; simp [receiveMark, h]
  · intro h; simp [receiveMark, h]
  · rcases h : st.responseTask with _ | i <;> simp [currentNotDone, h]

theorem C10_mark_guard_witness :
    receiveMark stMarkDone "ai_finished_speaking" =
      { stMarkDone with isAiSpeaking := false } ∧
    receiveMark stMarkRun "ai_finished_speaking" = stMarkRun :=
  ⟨(C10_mark_guard stMarkDone).1 (by decide), (C10_mark_guard stMarkRun).2.1 (by decide)⟩

/-! ## C7 — turn-end bookkeeping and generation errors -/

theorem trimChars_ne_nil {l : List Char} (h : hasInk l = true) :
    trimChars l ≠ [] := by
  simp only [hasInk, List.any_eq_true, Bool.not_eq_true'] at h
  obtain ⟨c, hc, hcw⟩ := h
  intro he
  unfold trimChars at he
  rw [List.reverse_eq_nil_iff, List.dropWhile_eq_nil_iff] at he
  have hcd : c ∈ l.dropWhile Char.isWhitespace := by
    have hsplit := List.takeWhile_append_dropWhile (p := Char.isWhitespace) (l := l)
    rw [← hsplit] at hc
    rcases List.mem_append.1 hc with htk | hdw
    · exact absurd (List.mem_takeWhile_imp htk) (by simp [hcw])
    · exact hdw
  have := he c (List.mem_reverse.2 hcd)
  simp [hcw] at this

theorem trimS_ne_empty {s : String} (h : hasInk s.data = true) :
    trimS s ≠ "" := by
  intro he
  have hd := congrArg String.data he
  exact trimChars_ne_nil h hd

theorem concatAll_concat (ts : List String) (a : String) :
    concatAll (ts ++ [a]) = concatAll ts ++ a := by
  simp [concatAll, List.foldl_append]

/-- C7 (amended): whenever a generation turn ends — normally, by
cancellation, or by a generation-service error — the accumulated reply
text, when non-empty after stripping, is appended to the history as the
assistant turn (and nothing is appended otherwise); in the error case the
apology fragment is emitted after any already-yielded fragments, the
recorded assistant turn is the partial text with the apology appended
(never empty, so it is always recorded), and the turn still returns
normally. -/
theorem C7_turn_bookkeeping (msgs : List (String × String)) (u : String)
    (out : GenOutcome) :
    (trimS (concatAll (genParts out)) ≠ "" →
      (generateAndSpeak msgs u out).1 =
        msgs ++ [("user", u), ("assistant", trimS (concatAll (genParts out)))]) ∧
    (trimS (concatAll (genParts out)) = "" →
      (generateAndSpeak msgs u out).1 = msgs ++ [("user", u)]) ∧
    (∀ ts, out = GenOutcome.err ts →
      (generateAndSpeak msgs u out).2 = chunkFragsNoFlush ts ++ [apologyMsg] ∧
      trimS (concatAll (genParts out)) = trimS (concatAll ts ++ apologyMsg) ∧
      trimS (concatAll (genParts out)) ≠ "") := by
  refine ⟨?_, ?_, ?_⟩
  · intro h; simp [generateAndSpeak, h]
  · intro h; simp [generateAndSpeak, h]
  · rintro ts rfl
    refine ⟨by simp [generateAndSpeak, genFragments], ?_, ?_⟩
    · simp [genParts, concatAll_concat]
    · rw [show concatAll (genParts (GenOutcome.err ts)) =
            concatAll ts ++ apologyMsg from concatAll_concat ts apologyMsg]
      apply trimS_ne_empty
      rw [String.data_append]
      simp only [hasInk, List.any_append, Bool.or_eq_true]
      right
      decide

theorem C7_error_counterexample :
    (generateAndSpeak [] "hi" (GenOutcome.err ["Hello."])).2 ≠ [apologyMsg] ∧
    (generateAndSpeak [] "hi" (GenOutcome.err ["Hello."])).1 ≠
      [("user", "hi"), ("assistant", apologyMsg)] := by
  constructor <;> decide

theorem C7_turn_bookkeeping_witness :
    (generateAndSpeak [] "hi" (GenOutcome.err ["Hello."])).1 =
      [] ++ [("user", "hi"),
        ("assistant", trimS (concatAll (genParts (GenOutcome.err ["Hello."]))))] ∧
    (generateAndSpeak [] "hi" (GenOutcome.err ["Hello."])).2 =
      chunkFragsNoFlush ["Hello."] ++ [apologyMsg] :=
  ⟨(C7_turn_bookkeeping [] "hi" (GenOutcome.err ["Hello."])).1 (by decide),
   ((C7_turn_bookkeeping [] "hi" (GenOutcome.err ["Hello."])).2.2 ["Hello."] rfl).1⟩

/-! ## C8 — end-of-call phrases -/

/-- C8 (amended): a finalized utterance matching an end-of-call phrase
makes `_process_user_buffer` cancel any current response task and
immediately start a goodbye reply task — never invoking the generation
service for that utterance — and log a `call_ended` event; but no state
transition towards an ended session happens: `call_active` is untouched,
and the session keeps consuming events until the transport stops. -/
theorem C8_goodbye_path (st : CState)
    (h : endCallMatch (trimS (joinSpace st.transcriptionBuffer)) = true) :
    (processUserBuffer st).1 =
      createTask
        (cancelResponseTask
          { st with transcriptionBuffer := [], debounceRunning := false })
        TaskKind.goodbye ∧
    Effect.logEvent "call_ended" "User said goodbye" ∈ (processUserBuffer st).2 ∧
    Effect.startTask TaskKind.goodbye ∈ (processUserBuffer st).2 ∧
    (∀ u, Effect.startTask (TaskKind.generate u) ∉ (processUserBuffer st).2) ∧
    (processUserBuffer st).1.callActive = st.callActive := by
  have hne : trimS (joinSpace st.transcriptionBuffer) ≠ "" := by
    intro he; rw [he] at h; exact absurd h (by decide)
  have hmain : (processUserBuffer st).1 =
      createTask
        (cancelResponseTask
          { st with transcriptionBuffer := [], debounceRunning := false })
        TaskKind.goodbye := by
    simp [processUserBuffer, hne, h]
  refine ⟨hmain, ?_, ?_, ?_, ?_⟩
  · simp [processUserBuffer, hne, h]
  · simp [processUserBuffer, hne, h]
  · intro u; simp [processUserBuffer, hne, h]
  · rw [hmain]
    rw [show ∀ x : CState, (createTask x TaskKind.goodbye).callActive = x.callActive
          from fun x => rfl]
    rw [cancel_callActive]

theorem C8_no_ended_counterexample :
    kindAt (runTrace goodbyeTrace) 1 = some TaskKind.goodbye ∧
    statusAt (runTrace goodbyeTrace) 1 = TaskStatus.done ∧
    (runTrace goodbyeTrace).callActive = true := by
  refine ⟨by decide, by decide, by decide⟩

theorem C8_goodbye_path_witness :
    (processUserBuffer stGb).1.callActive = true ∧
    Effect.startTask TaskKind.goodbye ∈ (processUserBuffer stGb).2 ∧
    (processUserBuffer stGb).2.all (fun e => e ≠ Effect.startTask (TaskKind.generate "goodbye")) := by
  have h := C8_goodbye_path stGb (by decide)
  refine ⟨h.2.2.2.2, h.2.2.1, ?_⟩
  rw [List.all_eq_true]
  intro e he
  simp only [decide_eq_true_eq]
  intro hcontra
  exact h.2.2.2.1 "goodbye" (hcontra ▸ he)

/-! ## C9 — the echo baseline's lifecycle -/

/-- C9 (amended): the echo baseline (`self.ai_spoken_buffer`) is appended
to only by the running generate reply task and is cleared whenever
`_cancel_response_task` runs (cancellation); but a reply task that
completes normally does NOT clear it — the buffer survives `taskDone`
unchanged and keeps accumulating into the next reply. -/
theorem C9_baseline_lifecycle :
    (∀ st : CState, (cancelResponseTask st).aiSpokenBuffer = "") ∧
    (∀ (st : CState) (s : String), currentGenRunning st = true →
      (step st (Ev.taskYield s)).aiSpokenBuffer = st.aiSpokenBuffer ++ s) ∧
    (∀ st : CState, (step st Ev.taskDone).aiSpokenBuffer = st.aiSpokenBuffer) := by
  refine ⟨cancel_aiSpokenBuffer, ?_, ?_⟩
  · intro st s h; simp [step, h]
  · intro st
    simp only [step, finishCurrent]
    rcases h : st.responseTask with _ | i <;> simp only
    split <;> rfl

theorem C9_baseline_counterexample :
    statusAt (runTrace replyTrace) 1 = TaskStatus.done ∧
    (runTrace replyTrace).aiSpokenBuffer = "Hi there." := by
  refine ⟨by decide, by decide⟩

theorem C9_baseline_lifecycle_witness :
    (step stGen (Ev.taskYield "More.")).aiSpokenBuffer = "Hello. " ++ "More." :=
  C9_baseline_lifecycle.2.1 stGen "More." (by decide)

/-! ## C6 — the playback streamer -/

theorem drainFuel_congr :
    ∀ (f1 f2 : Nat) (buf : List Nat), buf.length ≤ f1 → buf.length ≤ f2 →
      drainFuel f1 buf = drainFuel f2 buf := by
  intro f1
  induction f1 with
  | zero =>
    intro f2 buf h1 _
    have hb : buf = [] := List.eq_nil_of_length_eq_zero (Nat.le_zero.1 h1)
    subst hb
    cases f2 with
    | zero => rfl
    | succ m => simp [drainFuel, chunkSize]
  | succ n ih =>
    intro f2 buf h1 h2
    cases f2 with
    | zero =>
      have hb : buf = [] := List.eq_nil_of_length_eq_zero (Nat.le_zero.1 h2)
      subst hb
      simp [drainFuel, chunkSize]
    | succ m =>
      simp only [drainFuel]
      by_cases hc : chunkSize ≤ buf.length
      · have hcs : chunkSize = 4000 := rfl
        have hd : (buf.drop chunkSize).length = buf.length - chunkSize :=
          List.length_drop _ _
        rw [ih m (buf.drop chunkSize) (by omega) (by omega)]
      · simp [hc]

theorem drainBuf_unfold (buf : List Nat) :
    drainBuf buf =
      if chunkSize ≤ buf.length then
        (buf.take chunkSize :: (drainBuf (buf.drop chunkSize)).1,
         (drainBuf (buf.drop chunkSize)).2)
      else ([], buf) := by
  have hcs : chunkSize = 4000 := rfl
  by_cases hc : chunkSize ≤ buf.length
  · rw [if_pos hc]
    obtain ⟨n, hn⟩ : ∃ n, buf.length = n + 1 := ⟨buf.length - 1, by omega⟩
    have hd : (buf.drop chunkSize).length = buf.length - chunkSize :=
      List.length_drop _ _
    show drainFuel buf.length buf = _
    rw [hn]
    simp only [drainFuel, if_pos hc]
    rw [show drainBuf (buf.drop chunkSize) =
          drainFuel (buf.drop chunkSize).length (buf.drop chunkSize) from rfl]
    rw [drainFuel_congr n (buf.drop chunkSize).length (buf.drop chunkSize)
          (by omega) le_rfl]
  · rw [if_neg hc]
    show drainFuel buf.length buf = _
    cases hl : buf.length with
    | zero => rfl
    | succ n =>
      simp only [drainFuel]
      rw [if_neg hc]

theorem drainBuf_small {buf : List Nat} (h : buf.length < chunkSize) :
    drainBuf buf = ([], buf) := by
  rw [drainBuf_unfold, if_neg (by omega)]

theorem drainBuf_rest_lt :
    ∀ (n : Nat) (buf : List Nat), buf.length ≤ n →
      (drainBuf buf).2.length < chunkSize := by
  intro n
  have hcs : chunkSize = 4000 := rfl
  induction n with
  | zero =>
    intro buf h
    have hb : buf.length = 0 := Nat.le_zero.1 h
    rw [drainBuf_small (by omega)]
    simpa using by omega
  | succ n ih =>
    intro buf h
    rw [drainBuf_unfold]
    by_cases hc : chunkSize ≤ buf.length
    · rw [if_pos hc]
      have hd : (buf.drop chunkSize).length = buf.length - chunkSize :=
        List.length_drop _ _
      exact ih (buf.drop chunkSize) (by omega)
    · rw [if_neg hc]
      simpa using by omega

theorem drainBuf_packs_size :
    ∀ (n : Nat) (buf : List Nat), buf.length ≤ n →
      ∀ p ∈ (drainBuf buf).1, p.length = chunkSize := by
  intro n
  have hcs : chunkSize = 4000 := rfl
  induction n with
  | zero =>
    intro buf h p hp
    rw [drainBuf_small (by omega)] at hp
    simp at hp
  | succ n ih =>
    intro buf h p hp
    rw [drainBuf_unfold] at hp
    by_cases hc : chunkSize ≤ buf.length
    · rw [if_pos hc] at hp
      simp only [List.mem_cons] at hp
      rcases hp with hp | hp
      · subst hp; simpa using by omega
      · have hd : (buf.drop chunkSize).length = buf.length - chunkSize :=
          List.length_drop _ _
        exact ih (buf.drop chunkSize) (by omega) p hp
    · rw [if_neg hc] at hp
      simp at hp

theorem drainBuf_append :
    ∀ (n : Nat) (a b : List Nat), a.length ≤ n →
      (drainBuf (a ++ b)).1 =
        (drainBuf a).1 ++ (drainBuf ((drainBuf a).2 ++ b)).1 ∧
      (drainBuf (a ++ b)).2 = (drainBuf ((drainBuf a).2 ++ b)).2 := by
  intro n
  have hcs : chunkSize = 4000 := rfl
  induction n with
  | zero =>
    intro a b h
    have hb : a = [] := List.eq_nil_of_length_eq_zero (Nat.le_zero.1 h)
    subst hb
    have h0 : drainBuf ([] : List Nat) = ([], []) := drainBuf_small (by omega)
    rw [h0]
    simp
  | succ n ih =>
    intro a b h
    by_cases hc : chunkSize ≤ a.length
    · have h1 : chunkSize ≤ (a ++ b).length := by
        rw [List.length_append]; omega
      rw [drainBuf_unfold (a ++ b), if_pos h1, drainBuf_unfold a, if_pos hc]
      rw [List.take_append_of_le_length hc, List.drop_append_of_le_length hc]
      have hd : (a.drop chunkSize).length = a.length - chunkSize :=
        List.length_drop _ _
      obtain ⟨ih1, ih2⟩ := ih (a.drop chunkSize) b (by omega)
      exact ⟨by rw [ih1]; simp, by rw [ih2]⟩
    · have hsmall : drainBuf a = ([], a) := drainBuf_small (by omega)
      rw [hsmall]
      simp

theorem playbackGo_none_eq :
    ∀ (cs : List (List Nat)) (i : Nat) (buffer : List Nat),
      buffer.length < chunkSize →
      playbackGo none i buffer cs =
        ((drainBuf (buffer ++ cs.flatten)).1.map
          fun p => Frame.media (b64Str p)) ++
        (if (drainBuf (buffer ++ cs.flatten)).2 ≠ [] then
          [Frame.media (b64Str (drainBuf (buffer ++ cs.flatten)).2)] else []) ++
        [Frame.mark "ai_finished_speaking"] := by
  intro cs
  induction cs with
  | nil =>
    intro i buffer h
    rw [List.flatten_nil, List.append_nil, drainBuf_small h]
    simp [playbackGo, interruptedAt]
  | cons c cs ih =>
    intro i buffer h
    have hrest : (drainBuf (buffer ++ c)).2.length < chunkSize :=
      drainBuf_rest_lt (buffer ++ c).length _ le_rfl
    simp only [playbackGo, interruptedAt, Bool.false_eq_true, if_false]
    rw [ih (i + 1) _ hrest]
    obtain ⟨h1, h2⟩ := drainBuf_append (buffer ++ c).length (buffer ++ c)
      cs.flatten le_rfl
    rw [List.flatten_cons,
        show buffer ++ (c ++ cs.flatten) = buffer ++ c ++ cs.flatten from
          (List.append_assoc buffer c cs.flatten).symm,
        h1, h2]
    simp [List.map_append, List.append_assoc]

theorem playbackGo_some_eq :
    ∀ (cs : List (List Nat)) (i j : Nat) (buffer : List Nat),
      buffer.length < chunkSize → i ≤ j → j ≤ i + cs.length →
      playbackGo (some j) i buffer cs =
        ((drainBuf (buffer ++ (cs.take (j - i)).flatten)).1.map
          fun p => Frame.media (b64Str p)) := by
  intro cs
  induction cs with
  | nil =>
    intro i j buffer hb hij hji
    have hj : j = i := le_antisymm (by simpa using hji) hij
    subst hj
    rw [show (List.take (j - j) ([] : List (List Nat))) = [] by simp]
    rw [List.flatten_nil, List.append_nil, drainBuf_small hb]
    simp [playbackGo, interruptedAt]
  | cons c cs ih =>
    intro i j buffer hb hij hji
    by_cases hj : j ≤ i
    · have hji' : j = i := le_antisymm hj hij
      subst hji'
      rw [show j - j = 0 from Nat.sub_self j]
      rw [List.take_zero, List.flatten_nil, List.append_nil, drainBuf_small hb]
      simp [playbackGo, interruptedAt]
    · have hij1 : i + 1 ≤ j := by omega
      have hrest : (drainBuf (buffer ++ c)).2.length < chunkSize :=
        drainBuf_rest_lt (buffer ++ c).length _ le_rfl
      simp only [playbackGo, interruptedAt, decide_eq_true_eq]
      rw [if_neg (by omega)]
      rw [ih (i + 1) j _ hrest hij1 (by simp at hji ⊢; omega)]
      have hsub : j - i = (j - (i + 1)) + 1 := by omega
      rw [hsub, List.take_succ_cons, List.flatten_cons,
          show buffer ++ (c ++ (cs.take (j - (i + 1))).flatten) =
              buffer ++ c ++ (cs.take (j - (i + 1))).flatten from
            (List.append_assoc buffer c _).symm]
      obtain ⟨h1, h2⟩ := drainBuf_append (buffer ++ c).length (buffer ++ c)
        (cs.take (j - (i + 1))).flatten le_rfl
      rw [h1]
      simp [List.map_append]

/-- C6: for an active call, the playback loop slices the accumulated audio
into packets of exactly `CHUNK_SIZE = 4000` bytes, base64-encodes each and
sends it as a `media` frame; on uninterrupted completion it flushes the
(non-empty) remainder and sends `ai_finished_speaking` as the last frame;
when the interruption flag is seen at loop iteration `j` it stops at once —
the frames are exactly the full packets of the first `j` chunks, with no
flush of the partial buffer and no completion mark. -/
theorem C6_playback_streamer (chunks : List (List Nat)) :
    handleAiFrames true chunks none =
      ((drainBuf chunks.flatten).1.map fun p => Frame.media (b64Str p)) ++
        (if (drainBuf chunks.flatten).2 ≠ [] then
          [Frame.media (b64Str (drainBuf chunks.flatten).2)] else []) ++
        [Frame.mark "ai_finished_speaking"] ∧
    (∀ j, j ≤ chunks.length →
      handleAiFrames true chunks (some j) =
        ((drainBuf (chunks.take j).flatten).1.map
          fun p => Frame.media (b64Str p)) ∧
      Frame.mark "ai_finished_speaking" ∉ handleAiFrames true chunks (some j)) ∧
    (∀ p ∈ (drainBuf chunks.flatten).1, p.length = chunkSize) := by
  refine ⟨?_, ?_, drainBuf_packs_size chunks.flatten.length _ le_rfl⟩
  · have h := playbackGo_none_eq chunks 0 [] (by decide)
    simpa [handleAiFrames] using h
  · intro j hj
    have heq := playbackGo_some_eq chunks 0 j [] (by decide) (Nat.zero_le j)
      (by simpa using hj)
    have heq' : handleAiFrames true chunks (some j) =
        ((drainBuf (chunks.take j).flatten).1.map
          fun p => Frame.media (b64Str p)) := by
      simpa [handleAiFrames] using heq
    refine ⟨heq', ?_⟩
    rw [heq']
    simp

theorem C6_playback_streamer_witness :
    1 ≤ ([[1, 2, 3]] : List (List Nat)).length ∧
    handleAiFrames true [[1, 2, 3]] (some 1) = [] ∧
    Frame.mark "ai_finished_speaking" ∉ handleAiFrames true [[1, 2, 3]] (some 1) := by
  have h := (C6_playback_streamer [[1, 2, 3]]).2.1 1 (by decide)
  refine ⟨by decide, ?_, h.2⟩
  rw [h.1]
  decide

/-! ## C1 — at most one active reply task -/

theorem statusL_done_of_ge {tasks : List TaskRec} {i : Nat}
    (h : tasks.length ≤ i) : statusL tasks i = TaskStatus.done := by
  simp [statusL, List.getElem?_eq_none h]

theorem lt_of_statusL_running {tasks : List TaskRec} {i : Nat}
    (h : statusL tasks i = TaskStatus.running) : i < tasks.length := by
  by_contra hge
  rw [statusL_done_of_ge (by omega)] at h
  cases h

theorem setStatus_length (tasks : List TaskRec) (i : Nat) (s : TaskStatus) :
    (setStatus tasks i s).length = tasks.length := by
  unfold setStatus
  cases tasks[i]? <;> simp

theorem statusL_setStatus_self {tasks : List TaskRec} {i : Nat} (s : TaskStatus)
    (h : i < tasks.length) : statusL (setStatus tasks i s) i = s := by
  have hg : tasks[i]? = some tasks[i] := List.getElem?_eq_getElem h
  simp [setStatus, hg, statusL, List.getElem?_set_eq_of_lt _ h]

theorem statusL_setStatus_ne {tasks : List TaskRec} {i j : Nat} (s : TaskStatus)
    (h : i ≠ j) : statusL (setStatus tasks i s) j = statusL tasks j := by
  unfold setStatus
  cases hg : tasks[i]? with
  | none => rfl
  | some r => simp [statusL, List.getElem?_set_ne h]

theorem statusL_append_lt {tasks : List TaskRec} {r : TaskRec} {i : Nat}
    (h : i < tasks.length) : statusL (tasks ++ [r]) i = statusL tasks i := by
  unfold statusL
  rw [List.getElem?_append, if_pos h]

theorem noRunning_oneReply {st : CState} (h : NoRunning st) : OneReply st :=
  fun i _ hrun => absurd hrun (h i)

theorem oneReply_congr {s1 s2 : CState} (ht : s2.tasks = s1.tasks)
    (hp : s2.responseTask = s1.responseTask) (h : OneReply s1) : OneReply s2 := by
  intro i hlen hrun
  rw [ht] at hlen
  have hrun' : statusAt s1 i = TaskStatus.running := by
    show statusL s1.tasks i = _
    rw [← ht]
    exact hrun
  obtain ⟨h1, h2⟩ := h i hlen hrun'
  exact ⟨by rw [ht]; exact h1, by rw [hp]; exact h2⟩

theorem noRunning_congr {s1 s2 : CState} (ht : s2.tasks = s1.tasks)
    (h : NoRunning s1) : NoRunning s2 := by
  intro i
  show statusL s2.tasks i ≠ _
  rw [ht]
  exact h i

/-- After `_cancel_response_task` no task of a well-formed session is still
running: any running task was the tracked one, and it just got cancelled. -/
theorem noRunning_cancelResponseTask {st : CState} (h : OneReply st) :
    NoRunning (cancelResponseTask st) := by
  intro i
  unfold cancelResponseTask
  rcases hrt : st.responseTask with _ | k
  · simp only
    show statusL st.tasks i ≠ TaskStatus.running
    intro hrun
    obtain ⟨-, hptr⟩ := h i (lt_of_statusL_running hrun) hrun
    rw [hptr] at hrt
    cases hrt
  · simp only
    by_cases hdone : statusAt st k ≠ TaskStatus.done
    · rw [if_pos hdone]
      show statusL (setStatus st.tasks k TaskStatus.cancelled) i ≠ TaskStatus.running
      by_cases hik : k = i
      · subst hik
        intro hrun
        have hlt : k < st.tasks.length := by
          have hlen := lt_of_statusL_running hrun
          rwa [setStatus_length] at hlen
        rw [statusL_setStatus_self _ hlt] at hrun
        cases hrun
      · rw [statusL_setStatus_ne _ hik]
        intro hrun
        obtain ⟨-, hptr⟩ := h i (lt_of_statusL_running hrun) hrun
        rw [hptr] at hrt
        injection hrt with he
        exact hik he.symm
    · rw [if_neg hdone]
      show statusL st.tasks i ≠ TaskStatus.running
      push_neg at hdone
      intro hrun
      obtain ⟨-, hptr⟩ := h i (lt_of_statusL_running hrun) hrun
      rw [hptr] at hrt
      injection hrt with he
      subst he
      rw [show statusAt st i = statusL st.tasks i from rfl, hrun] at hdone
      cases hdone

/-- Creating a task in a session with no running task restores the
invariant: the fresh task is the newest and is the tracked one. -/
theorem oneReply_createTask {st : CState} (h : NoRunning st) (k : TaskKind) :
    OneReply (createTask st k) := by
  intro i hlen hrun
  have hlen' : i < st.tasks.length + 1 := by
    simpa [createTask] using hlen
  by_cases hi : i < st.tasks.length
  · exfalso
    apply h i
    show statusL st.tasks i = TaskStatus.running
    have hrun' : statusL (st.tasks ++ [{ kind := k, status := TaskStatus.running }]) i =
        TaskStatus.running := hrun
    rwa [statusL_append_lt hi] at hrun'
  · have hieq : i = st.tasks.length := by omega
    subst hieq
    constructor
    · simp [createTask]
    · rfl

theorem oneReply_finishCurrent {st : CState} (h : OneReply st) :
    OneReply (finishCurrent st) := by
  unfold finishCurrent
  rcases hrt : st.responseTask with _ | k
  · simpa only using h
  · simp only
    by_cases hrun : statusAt st k = TaskStatus.running
    · rw [if_pos hrun]
      intro i hlen hrunI
      have hlen' : i < st.tasks.length := by
        simpa [setStatus_length] using hlen
      have hrunL : statusL (setStatus st.tasks k TaskStatus.done) i =
          TaskStatus.running := hrunI
      by_cases hik : k = i
      · subst hik
        rw [statusL_setStatus_self _ (lt_of_statusL_running hrun)] at hrunL
        cases hrunL
      · rw [statusL_setStatus_ne _ hik] at hrunL
        obtain ⟨h1, h2⟩ := h i hlen' hrunL
        refine ⟨by simpa [setStatus_length] using h1, ?_⟩
        show some k = some i
        rw [← hrt]
        exact h2
    · rw [if_neg hrun]
      exact h

theorem interruptState_tasks (st : CState) :
    (interruptState st).tasks =
      (cancelResponseTask { st with interrupted := true }).tasks :=
  clear_tasks _

theorem interruptState_responseTask (st : CState) :
    (interruptState st).responseTask =
      (cancelResponseTask { st with interrupted := true }).responseTask :=
  clear_responseTask _

/-- The state produced by `on_message` either keeps the task bookkeeping
untouched or equals (in its task fields) the result of cancelling the
current response task. -/
theorem onMessage_taskFields (st : CState) (t : String) (f : Bool) :
    ((onMessage st t f).1.tasks = st.tasks ∧
      (onMessage st t f).1.responseTask = st.responseTask) ∨
    ((onMessage st t f).1.tasks =
        (cancelResponseTask { st with interrupted := true }).tasks ∧
      (onMessage st t f).1.responseTask =
        (cancelResponseTask { st with interrupted := true }).responseTask) := by
  unfold onMessage
  by_cases hE : echoDrop st (trimS t) = true
  · left
    simp [hE]
  · have hE' : echoDrop st (trimS t) = false := by
      simpa using hE
    simp only [hE', Bool.false_eq_true, if_false]
    unfold onMessageRest
    by_cases h1 : (st.isAiSpeaking && !isSubstantial (trimS t)) = true
    · left
      simp [h1]
    · have h1' : (st.isAiSpeaking && !isSubstantial (trimS t)) = false := by
        simpa using h1
      simp only [h1', Bool.false_eq_true, if_false]
      by_cases h2 : (st.isAiSpeaking && !st.interrupted) = true
      · right
        simp only [h2, if_true]
        cases f with
        | false =>
          simp only [Bool.not_false, if_true]
          exact ⟨interruptState_tasks st, interruptState_responseTask st⟩
        | true =>
          simp only [Bool.not_true, Bool.false_eq_true, if_false]
          by_cases hs : trimS t = ""
          · simp only [hs, if_pos rfl]
            exact ⟨interruptState_tasks st, interruptState_responseTask st⟩
          · rw [if_neg hs]
            exact ⟨interruptState_tasks st, interruptState_responseTask st⟩
      · left
        have h2' : (st.isAiSpeaking && !st.interrupted) = false := by
          simpa using h2
        simp only [h2', Bool.false_eq_true, if_false]
        cases f with
        | false => simp
        | true =>
          simp only [Bool.not_true, Bool.false_eq_true, if_false]
          by_cases hs : trimS t = ""
          · simp [hs]
          · rw [if_neg hs]
            exact ⟨rfl, rfl⟩

theorem oneReply_onMessage {st : CState} (h : OneReply st) (t : String) (f : Bool) :
    OneReply (onMessage st t f).1 := by
  rcases onMessage_taskFields st t f with ⟨ht, hp⟩ | ⟨ht, hp⟩
  · exact oneReply_congr ht hp h
  · have hnr : NoRunning (cancelResponseTask { st with interrupted := true }) :=
      noRunning_cancelResponseTask (oneReply_congr rfl rfl h)
    exact noRunning_oneReply (noRunning_congr ht hnr)

theorem oneReply_processUserBuffer {st : CState} (h : OneReply st) :
    OneReply (processUserBuffer st).1 := by
  unfold processUserBuffer
  by_cases he : trimS (joinSpace st.transcriptionBuffer) = ""
  · simp only [he, if_pos rfl]
    exact oneReply_congr rfl rfl h
  · rw [if_neg he]
    have hst0 : OneReply
        { st with transcriptionBuffer := [], debounceRunning := false } :=
      oneReply_congr rfl rfl h
    by_cases hg : endCallMatch (trimS (joinSpace st.transcriptionBuffer)) = true
    · simp only [hg, if_true]
      exact oneReply_createTask (noRunning_cancelResponseTask hst0) _
    · have hg' : endCallMatch (trimS (joinSpace st.transcriptionBuffer)) = false := by
        simpa using hg
      simp only [hg', Bool.false_eq_true, if_false]
      exact oneReply_createTask (noRunning_cancelResponseTask hst0) _

theorem receiveMark_taskFields (st : CState) (n : String) :
    (receiveMark st n).tasks = st.tasks ∧
    (receiveMark st n).responseTask = st.responseTask := by
  unfold receiveMark
  split
  · split
    · exact ⟨rfl, rfl⟩
    · exact ⟨rfl, rfl⟩
  · exact ⟨rfl, rfl⟩

/-- Every event except a (non-initial) `start` preserves the single-reply
invariant. -/
theorem oneReply_step {st : CState} (h : OneReply st) (e : Ev)
    (hne : e ≠ Ev.start) : OneReply (step st e) := by
  cases e with
  | start => exact absurd rfl hne
  | frag t f => exact oneReply_onMessage h t f
  | fireDebounce =>
    simp only [step]
    split
    · exact oneReply_processUserBuffer h
    · exact h
  | markFrame n =>
    exact oneReply_congr (receiveMark_taskFields st n).1
      (receiveMark_taskFields st n).2 h
  | stop =>
    show OneReply (cancelResponseTask { st with callActive := false })
    exact noRunning_oneReply
      (noRunning_cancelResponseTask (oneReply_congr rfl rfl h))
  | taskBegin =>
    simp only [step]
    split
    · exact oneReply_congr rfl rfl h
    · exact h
  | taskYield s =>
    simp only [step]
    split
    · exact oneReply_congr rfl rfl h
    · exact h
  | taskDone => exact oneReply_finishCurrent h

theorem oneReply_foldl :
    ∀ (evs : List Ev) (st : CState), OneReply st → Ev.start ∉ evs →
      OneReply (evs.foldl step st) := by
  intro evs
  induction evs with
  | nil => intro st h _; simpa using h
  | cons e rest ih =>
    intro st h hmem
    simp only [List.foldl_cons]
    have hne : e ≠ Ev.start := by
      intro he; exact hmem (by simp [he])
    exact ih (step st e) (oneReply_step h e hne)
      (fun hc => hmem (List.mem_cons_of_mem _ hc))

/-- C1: in any session whose transport delivers `start` at most once (and
only as the first event), at every instant every running reply task is the
newest task ever created and is exactly the one tracked by
`self.response_task` — so at most one reply task is ever active, and every
reply-starting event first leaves the session with no running task (via
`_cancel_response_task`) before creating the new one. -/
theorem C1_single_reply :
    (∀ evs : List Ev, goodTrace evs → OneReply (runTrace evs)) ∧
    (∀ st : CState, OneReply st → NoRunning (cancelResponseTask st)) := by
  constructor
  · intro evs hg
    cases evs with
    | nil => exact by decide
    | cons e rest =>
      have hmem : Ev.start ∉ rest := hg
      have h0 : OneReply (step connectInit e) := by
        by_cases he : e = Ev.start
        · subst he; decide
        · exact oneReply_step (by decide) e he
      simpa [runTrace] using oneReply_foldl rest (step connectInit e) h0 hmem
  · exact fun st h => noRunning_cancelResponseTask h

theorem C1_single_reply_witness :
    (goodTrace simpleTrace ∧ OneReply (runTrace simpleTrace)) ∧
    NoRunning (cancelResponseTask stMarkRun) :=
  ⟨⟨by decide, C1_single_reply.1 simpleTrace (by decide)⟩,
   C1_single_reply.2 stMarkRun (by decide)⟩

end AIC
